import Mathlib

/-!
Verification of the genji core: the order-preserving binary codec
(package `encoding`), the SELECT planner (`SelectStmt.ToStream`) and the
INSERT parser arity check, shallowly embedded in Lean.

Bytes are modelled as `Nat` values below 256, byte strings as `List Nat`,
`uint64` as `Nat` with explicit reduction modulo `2 ^ 64`, `int64` as `Int`
in the range `[-2 ^ 63, 2 ^ 63)`, and fallible Go functions as
`Except String`.
-/

namespace Genji

/-- Lexicographic strict order on byte strings, the order of Go's
`bytes.Compare(a, b) < 0`: a proper initial segment is smaller, otherwise
the first differing byte decides. -/
def lexLt : List Nat → List Nat → Bool
  | [], [] => false
  | [], _ :: _ => true
  | _ :: _, [] => false
  | a :: as, b :: bs => a < b || (a == b && lexLt as bs)

/-- `AppendBool` from package `encoding`: `true` encodes to the byte 255,
`false` to the byte 254. -/
def AppendBool (buf : List Nat) (x : Bool) : List Nat :=
  if x then buf ++ [255] else buf ++ [254]

/-- `DecodeBool` from package `encoding`: fails on an empty buffer,
otherwise returns whether the first byte equals 255. -/
def DecodeBool (buf : List Nat) : Except String Bool :=
  match buf with
  | [] => Except.error "cannot decode buffer to bool"
  | b :: _ => Except.ok (b == 255)

/-- Big-endian 8-byte representation of a `uint64`
(`binary.BigEndian.PutUint64`). -/
def beBytes8 (x : Nat) : List Nat :=
  [x / 2 ^ 56 % 256, x / 2 ^ 48 % 256, x / 2 ^ 40 % 256, x / 2 ^ 32 % 256,
   x / 2 ^ 24 % 256, x / 2 ^ 16 % 256, x / 2 ^ 8 % 256, x % 256]

/-- Big-endian read of the first 8 bytes of a buffer
(`binary.BigEndian.Uint64`); 0 when the buffer is shorter (the Go code
only calls it on buffers of length at least 8). -/
def beVal8 : List Nat → Nat
  | b0 :: b1 :: b2 :: b3 :: b4 :: b5 :: b6 :: b7 :: _ =>
      b0 * 2 ^ 56 + b1 * 2 ^ 48 + b2 * 2 ^ 40 + b3 * 2 ^ 32 +
      b4 * 2 ^ 24 + b5 * 2 ^ 16 + b6 * 2 ^ 8 + b7
  | _ => 0

/-- `AppendUint64` from package `encoding`: appends the 8-byte big-endian
representation of `x`. -/
def AppendUint64 (buf : List Nat) (x : Nat) : List Nat :=
  buf ++ beBytes8 (x % 2 ^ 64)

/-- `DecodeUint64` from package `encoding`: fails when fewer than 8 bytes
are available, otherwise reads the first 8 bytes big-endian. -/
def DecodeUint64 (buf : List Nat) : Except String Nat :=
  if buf.length < 8 then Except.error "cannot decode buffer to uint64"
  else Except.ok (beVal8 buf)

/-- Reinterpretation of a `uint64` bit pattern as an `int64`
(Go's `int64(x)` conversion). -/
def int64OfUint64 (u : Nat) : Int :=
  if u < 2 ^ 63 then (u : Int) else (u : Int) - 2 ^ 64

/-- Reinterpretation of an `int64` as a `uint64` bit pattern
(Go's `uint64(x)` conversion). -/
def uint64OfInt64 (x : Int) : Nat :=
  (x % 2 ^ 64).toNat

/-- `AppendInt64` from package `encoding`: computes
`uint64(x) + math.MaxInt64 + 1` in `uint64` arithmetic and appends it
big-endian. -/
def AppendInt64 (buf : List Nat) (x : Int) : List Nat :=
  AppendUint64 buf ((uint64OfInt64 x + (2 ^ 63 - 1) + 1) % 2 ^ 64)

/-- `DecodeInt64` from package `encoding`: decodes a `uint64`, subtracts
`math.MaxInt64 + 1` in wrapping `uint64` arithmetic, and reinterprets the
result as an `int64`. -/
def DecodeInt64 (buf : List Nat) : Except String Int :=
  match DecodeUint64 buf with
  | Except.error e => Except.error e
  | Except.ok x => Except.ok (int64OfUint64 ((x + (2 ^ 64 - ((2 ^ 63 - 1) + 1))) % 2 ^ 64))

/-- Whether an `Except` result is an error. -/
def isErr {α : Type} : Except String α → Bool
  | Except.error _ => true
  | Except.ok _ => false

/-! ### Float64 codec

`math.Float64bits` is a bijection between Go `float64` values and 64-bit
patterns, so the float codec is embedded as functions on bit patterns
(`Nat` below `2 ^ 64`).  The only float operation the codec performs is the
comparison `x >= 0`, whose IEEE-754 semantics on bit patterns is made
explicit below. -/

/-- Whether a 64-bit pattern denotes an IEEE-754 double NaN: exponent bits
all ones and mantissa nonzero. -/
def float64IsNaN (b : Nat) : Bool :=
  b / 2 ^ 52 % 2 ^ 11 == 2047 && b % 2 ^ 52 != 0

/-- The Go comparison `x >= 0` for the double with bit pattern `b`
(IEEE-754 semantics): false on NaN, true exactly when the sign bit is
clear or the value is `-0.0` (pattern `2 ^ 63`), since `-0.0 == 0.0`. -/
def float64GeZero (b : Nat) : Bool :=
  !float64IsNaN b && (b < 2 ^ 63 || b == 2 ^ 63)

/-- `AppendFloat64` from package `encoding`, on bit patterns: when
`x >= 0` it flips the top bit of `math.Float64bits x`, otherwise it flips
all 64 bits, then appends the result big-endian. -/
def AppendFloat64 (buf : List Nat) (b : Nat) : List Nat :=
  AppendUint64 buf (if float64GeZero b then b ^^^ 2 ^ 63 else b ^^^ (2 ^ 64 - 1))

/-- `DecodeFloat64` from package `encoding`, returning the bit pattern of
the decoded double: fails when fewer than 8 bytes are available, otherwise
flips the top bit back when it is set and flips all 64 bits back when it
is clear. -/
def DecodeFloat64 (buf : List Nat) : Except String Nat :=
  if buf.length < 8 then Except.error "cannot decode buffer to float64"
  else
    Except.ok (if beVal8 buf &&& 2 ^ 63 != 0 then beVal8 buf ^^^ 2 ^ 63
               else beVal8 buf ^^^ (2 ^ 64 - 1))

/-- Monotone reindexing of non-NaN double bit patterns: sign bit clear
maps to the upper half preserving order, sign bit set maps to the lower
half reversing order.  For non-NaN patterns `a`, `b` this key compares
like IEEE-754 `totalOrder`. -/
def float64OrderKey (b : Nat) : Nat :=
  if b < 2 ^ 63 then b + 2 ^ 63 else 2 ^ 64 - 1 - b

/-- Whether a 64-bit pattern denotes an IEEE-754 zero (`+0.0` or `-0.0`). -/
def float64IsZero (b : Nat) : Bool :=
  b == 0 || b == 2 ^ 63

/-- The Go comparison `x < y` on doubles with bit patterns `a`, `b`
(IEEE-754 semantics): false when either is NaN or when both are zeros
(`-0.0 == 0.0`), otherwise decided by the monotone order key. -/
def float64Lt (a b : Nat) : Bool :=
  !float64IsNaN a && !float64IsNaN b && !(float64IsZero a && float64IsZero b) &&
  decide (float64OrderKey a < float64OrderKey b)

/-! ### Base64 codec

`AppendBase64` and `DecodeBase64` delegate to Go's `encoding/base64` with
the custom alphabet below and no padding; the standard library encoder
and decoder are embedded here following RFC 4648: three input bytes map
to four 6-bit values, a final group of one or two bytes maps to two or
three values with zero padding bits, and decoding rejects inputs of
length 1 mod 4 or with characters outside the alphabet. -/

/-- The order-preserving base64 alphabet from package `encoding`
(`-0123456789ABCDEFGHIJKLMNOPQRSTUVWXYZ_abcdefghijklmnopqrstuvwxyz`),
as ASCII codes. -/
def b64alphabet : List Nat :=
  [45] ++ (List.range 10).map (fun i => 48 + i) ++
  (List.range 26).map (fun i => 65 + i) ++ [95] ++
  (List.range 26).map (fun i => 97 + i)

/-- The output character for a 6-bit value. -/
def b64char (i : Nat) : Nat :=
  b64alphabet.getD i 0

/-- The 6-bit value stream of `base64.Encoding.Encode`: three bytes yield
four sextets; a trailing group of two bytes yields three sextets and a
trailing single byte yields two, with zero padding bits. -/
def base64Sextets : List Nat → List Nat
  | a :: b :: c :: rest =>
      a / 4 :: (a % 4 * 16 + b / 16) :: (b % 16 * 4 + c / 64) :: c % 64 ::
        base64Sextets rest
  | [a, b] => [a / 4, a % 4 * 16 + b / 16, b % 16 * 4]
  | [a] => [a / 4, a % 4 * 16]
  | [] => []

/-- `AppendBase64` from package `encoding`: appends the unpadded base64
encoding of `data` over the order-preserving alphabet.  (The Go function
also returns an error, which is always nil.) -/
def AppendBase64 (buf data : List Nat) : List Nat :=
  buf ++ (base64Sextets data).map b64char

/-- Position of a character in the alphabet (`base64.Encoding.decodeMap`):
`none` for characters outside the alphabet. -/
def b64pos (c : Nat) : List Nat → Option Nat
  | [] => none
  | x :: xs => if x = c then some 0 else (b64pos c xs).map (· + 1)

/-- Decode every character of a base64 string to its 6-bit value, failing
on the first character outside the alphabet. -/
def b64indices : List Nat → Option (List Nat)
  | [] => some []
  | c :: cs =>
    match b64pos c b64alphabet, b64indices cs with
    | some i, some is => some (i :: is)
    | _, _ => none

/-- The byte stream rebuilt from 6-bit values
(`base64.Encoding.Decode`): four sextets yield three bytes; a trailing
group of three sextets yields two bytes and of two sextets one byte,
discarding the padding bits. -/
def base64Unsextets : List Nat → List Nat
  | s0 :: s1 :: s2 :: s3 :: rest =>
      (s0 * 4 + s1 / 16) :: (s1 % 16 * 16 + s2 / 4) :: (s2 % 4 * 64 + s3) ::
        base64Unsextets rest
  | [s0, s1, s2] => [s0 * 4 + s1 / 16, s1 % 16 * 16 + s2 / 4]
  | [s0, s1] => [s0 * 4 + s1 / 16]
  | _ => []

/-- `DecodeBase64` from package `encoding`: decodes a byte slice encoded
with `AppendBase64`, failing on a final quantum of one character or on a
character outside the alphabet. -/
def DecodeBase64 (src : List Nat) : Except String (List Nat) :=
  if src.length % 4 = 1 then Except.error "illegal base64 data"
  else
    match b64indices src with
    | none => Except.error "illegal base64 data"
    | some ixs => Except.ok (base64Unsextets ixs)

/-- The sextet stream computed one byte at a time: `phase` counts the
position of the next byte within its three-byte group and `carry` holds
the bits of the previous byte that belong to the next sextet.  Equal to
`base64Sextets` (proved below); this streaming form drives the order
proof. -/
def sxAux : Nat → Nat → List Nat → List Nat
  | 0, _, [] => []
  | 1, c, [] => [c * 16]
  | _, c, [] => [c * 4]
  | 0, _, a :: as => a / 4 :: sxAux 1 (a % 4) as
  | 1, c, a :: as => (c * 16 + a / 16) :: sxAux 2 (a % 16) as
  | _, c, a :: as => (c * 4 + a / 64) :: a % 64 :: sxAux 0 0 as

/-! ## Value and expression model

The planner claims depend on `expr.Expr`, `expr.Equal`, `expr.Walk`,
`Expr.Eval`, `document.Value` and its `CastAsInteger`, none of which are
under `src/`; those parts are modelled from the spec (sections 3 and 4.2)
and marked as such.  The planner itself (`SelectStmt.ToStream`) is
translated from `src/internal/query/select.go`. -/

/-- Modelled from the spec: the value kinds of section 3 (`Null`, `Bool`,
`Int64`, `Double`, `Text`, `Blob`, `Array`, `Document`), with the type
names used in error messages. -/
inductive ValueType where
  | nullT | boolT | integerT | doubleT | textT | blobT | arrayT | documentT
deriving DecidableEq

/-- Modelled from the spec: a type is a number exactly when it is the
`Int64` or `Double` kind ("numeric values coercible to Int64"). -/
def ValueType.IsNumber : ValueType → Bool
  | ValueType.integerT => true
  | ValueType.doubleT => true
  | _ => false

/-- Modelled from the spec: the printed name of a value type, as
interpolated into `%q` in planner error messages. -/
def ValueType.typeName : ValueType → String
  | ValueType.nullT => "null"
  | ValueType.boolT => "bool"
  | ValueType.integerT => "integer"
  | ValueType.doubleT => "double"
  | ValueType.textT => "text"
  | ValueType.blobT => "blob"
  | ValueType.arrayT => "array"
  | ValueType.documentT => "document"

/-- Modelled from the spec: a tagged scalar value (section 3).  The
payload of a `Double` is its mathematical value as an integer, which is
all the planner claims observe; arrays and documents carry no payload
here since the planner never inspects one. -/
inductive Value where
  | nullV
  | boolV (b : Bool)
  | intV (i : Int)
  | doubleV (d : Int)
  | textV (s : String)
  | blobV (bs : List Nat)
  | arrayV
  | documentV
deriving DecidableEq

/-- The type tag of a value. -/
def Value.valType : Value → ValueType
  | Value.nullV => ValueType.nullT
  | Value.boolV _ => ValueType.boolT
  | Value.intV _ => ValueType.integerT
  | Value.doubleV _ => ValueType.doubleT
  | Value.textV _ => ValueType.textT
  | Value.blobV _ => ValueType.blobT
  | Value.arrayV => ValueType.arrayT
  | Value.documentV => ValueType.documentT

/-- Modelled from the spec: `CastAsInteger` on the numeric kinds maps an
integer to itself and a double to its integral value; the planner only
calls it after `IsNumber` has been checked. -/
def castAsInteger : Value → Except String Value
  | Value.intV i => Except.ok (Value.intV i)
  | Value.doubleV d => Except.ok (Value.intV d)
  | _ => Except.error "cannot cast value as integer"

/-- The `int64` payload extracted by the Go type assertion `v.V.(int64)`
after a successful integer cast; 0 on non-integers (never reached). -/
def valueToInt : Value → Int
  | Value.intV i => i
  | _ => 0

/-- Modelled from the spec: the expression AST variants the planner
claims exercise (section 3): literals, paths, the wildcard, aggregator
builders and `NamedExpr` aliases. -/
inductive Expr where
  | litE (v : Value)
  | pathE (segs : List String)
  | wildcard
  | aggE (fname : String) (arg : Expr)
  | namedE (exprName : String) (e : Expr)
deriving DecidableEq

/-- Whether an expression is an aggregator builder (the Go interface
assertion `e.(expr.AggregatorBuilder)`). -/
def Expr.isAggregator : Expr → Bool
  | Expr.aggE _ _ => true
  | _ => false

/-- Modelled from the spec: the rendering of an expression interpolated
into `%q` in error messages; a `NamedExpr` renders as its inner
expression (the Go struct embeds it). -/
def exprToString : Expr → String
  | Expr.litE Value.nullV => "NULL"
  | Expr.litE (Value.boolV b) => if b then "true" else "false"
  | Expr.litE (Value.intV i) => toString i
  | Expr.litE (Value.doubleV d) => toString d
  | Expr.litE (Value.textV s) => s
  | Expr.litE (Value.blobV _) => "blob"
  | Expr.litE Value.arrayV => "array"
  | Expr.litE Value.documentV => "document"
  | Expr.pathE segs => String.intercalate "." segs
  | Expr.wildcard => "*"
  | Expr.aggE n arg => n ++ "(" ++ exprToString arg ++ ")"
  | Expr.namedE _ e => exprToString e

/-- Modelled from the spec: evaluation against an empty environment
(section 4.2).  A literal returns its value, a `NamedExpr` evaluates its
inner expression, a path over the empty environment yields `Null`;
wildcards and aggregators cannot be evaluated directly. -/
def Expr.eval : Expr → Except String Value
  | Expr.litE v => Except.ok v
  | Expr.namedE _ e => Expr.eval e
  | Expr.pathE _ => Except.ok Value.nullV
  | Expr.wildcard => Except.error "no table specified"
  | Expr.aggE _ _ => Except.error "aggregator can only be used in a projection"

/-- Modelled from the spec: `expr.Walk` visits an expression pre-order;
this predicate holds when the visit meets a `Path` or `Wildcard` node,
the condition of the planner's missing-FROM check. -/
def hasPathOrWildcard : Expr → Bool
  | Expr.pathE _ => true
  | Expr.wildcard => true
  | Expr.namedE _ e => hasPathOrWildcard e
  | Expr.aggE _ arg => hasPathOrWildcard arg
  | Expr.litE _ => false

/-! ## Stream operators and the SELECT planner -/

/-- The stream operators the SELECT planner can emit
(package `stream`). -/
inductive Op where
  | seqScan (table : String)
  | filter (e : Expr)
  | groupBy (e : Expr)
  | hashAggregate (aggs : List Expr)
  | project (es : List Expr)
  | distinct
  | sort (p : List String)
  | sortReverse (p : List String)
  | skip (n : Int)
  | take (n : Int)
deriving DecidableEq

/-- Scanner tokens distinguished by the planner: it only compares the
ORDER BY direction against `scanner.DESC`. -/
inductive Token where
  | ASC | DESC | ILLEGAL
deriving DecidableEq

/-- `query.SelectStmt`: nil-able Go fields become options, the absent
FROM clause is the empty table name as in the Go struct. -/
structure SelectStmt where
  tableName : String
  distinct : Bool
  whereExpr : Option Expr
  groupByExpr : Option Expr
  orderBy : Option (List String)
  orderByDirection : Token
  offsetExpr : Option Expr
  limitExpr : Option Expr
  projectionExprs : List Expr

/-- The GROUP BY projection loop of `ToStream`: returns the expression
assigned to `invalidProjectedField` (if the loop broke) and the
aggregator builders collected before the break.  A projection must be a
`NamedExpr` whose inner expression is an aggregator or is structurally
equal (`expr.Equal`) to the GROUP BY expression. -/
def groupByLoop (g : Expr) : List Expr → Option Expr × List Expr
  | [] => (none, [])
  | pe :: rest =>
    match pe with
    | Expr.namedE n e =>
      if e.isAggregator then
        ((groupByLoop g rest).1, e :: (groupByLoop g rest).2)
      else if e = g then groupByLoop g rest
      else (some (Expr.namedE n e), [])
    | _ => (some pe, [])

/-- The aggregator-collection loop of `ToStream` used when there is no
GROUP BY clause: the inner expressions of `NamedExpr` projections that
are aggregator builders, in order. -/
def collectAggregators : List Expr → List Expr
  | [] => []
  | Expr.namedE _ e :: rest =>
    if e.isAggregator then e :: collectAggregators rest else collectAggregators rest
  | _ :: rest => collectAggregators rest

/-- The planner error for an invalid GROUP BY projection
(`stringutil.Errorf("field %q must appear ...", invalidProjectedField)`). -/
def groupByFieldError (pe : Expr) : String :=
  "field \"" ++ exprToString pe ++
    "\" must appear in the GROUP BY clause or be used in an aggregate function"

/-- The tail of `ToStream` after the aggregation section: the
missing-FROM check, then `Project`, `Distinct`, and `Sort` or
`SortReverse`.  A nil `*stream.Stream` is the empty operator list and
`Pipe` appends one operator. -/
def pipeTail (stmt : SelectStmt) (s : List Op) : Except String (List Op) :=
  if stmt.tableName = "" ∧ stmt.projectionExprs.any hasPathOrWildcard then
    Except.error "no tables specified"
  else
    let s1 := s ++ [Op.project stmt.projectionExprs]
    let s2 := if stmt.distinct then s1 ++ [Op.distinct] else s1
    let s3 := match stmt.orderBy with
      | some p =>
        if stmt.orderByDirection = Token.DESC then s2 ++ [Op.sortReverse p]
        else s2 ++ [Op.sort p]
      | none => s2
    Except.ok s3

/-- The first two `Pipe` steps of `ToStream`: `SeqScan` when a table name
is present, then `Filter` when a WHERE expression is present. -/
def scanAndFilter (stmt : SelectStmt) : List Op :=
  (if stmt.tableName ≠ "" then [Op.seqScan stmt.tableName] else []) ++
  (match stmt.whereExpr with
   | some w => [Op.filter w]
   | none => [])

/-- The part of `ToStream` before the OFFSET section: `SeqScan` when a
table name is present, `Filter` for WHERE, then either the GROUP BY
validation followed by `GroupBy` and `HashAggregate`, or a bare
`HashAggregate` when aggregators occur without GROUP BY, then
`pipeTail`. -/
def planBase (stmt : SelectStmt) : Except String (List Op) :=
  match stmt.groupByExpr with
  | some g =>
    match groupByLoop g stmt.projectionExprs with
    | (some inv, _) => Except.error (groupByFieldError inv)
    | (none, aggs) =>
      pipeTail stmt (scanAndFilter stmt ++ [Op.groupBy g] ++ [Op.hashAggregate aggs])
  | none =>
    let aggs := collectAggregators stmt.projectionExprs
    pipeTail stmt
      (if aggs.length > 0 then scanAndFilter stmt ++ [Op.hashAggregate aggs]
       else scanAndFilter stmt)

/-- The OFFSET section of `ToStream`: evaluate the expression against an
empty environment, require a numeric type, cast to integer and pipe
`Skip`. -/
def applyOffset (stmt : SelectStmt) (s : List Op) : Except String (List Op) :=
  match stmt.offsetExpr with
  | none => Except.ok s
  | some e =>
    match Expr.eval e with
    | Except.error err => Except.error err
    | Except.ok v =>
      if v.valType.IsNumber = false then
        Except.error ("offset expression must evaluate to a number, got \"" ++
          v.valType.typeName ++ "\"")
      else
        match castAsInteger v with
        | Except.error err => Except.error err
        | Except.ok v2 => Except.ok (s ++ [Op.skip (valueToInt v2)])

/-- The LIMIT section of `ToStream`: evaluate the expression against an
empty environment, require a numeric type, cast to integer and pipe
`Take`. -/
def applyLimit (stmt : SelectStmt) (s : List Op) : Except String (List Op) :=
  match stmt.limitExpr with
  | none => Except.ok s
  | some e =>
    match Expr.eval e with
    | Except.error err => Except.error err
    | Except.ok v =>
      if v.valType.IsNumber = false then
        Except.error ("limit expression must evaluate to a number, got \"" ++
          v.valType.typeName ++ "\"")
      else
        match castAsInteger v with
        | Except.error err => Except.error err
        | Except.ok v2 => Except.ok (s ++ [Op.take (valueToInt v2)])

/-- `SelectStmt.ToStream` from `src/internal/query/select.go`, as the
operator list of the produced stream. -/
def ToStream (stmt : SelectStmt) : Except String (List Op) :=
  match planBase stmt with
  | Except.error e => Except.error e
  | Except.ok s =>
    match applyOffset stmt s with
    | Except.error e => Except.error e
    | Except.ok s2 => applyLimit stmt s2

/-- The pipeline of spec section 4.4, stated from the spec text: the
stages in the exact order SeqScan, Filter, GroupBy + HashAggregate (or
HashAggregate alone when aggregators occur without GROUP BY), Project,
Distinct, Sort/SortReverse, Skip, Take, each present exactly when its
clause is present. -/
def specPipeline (stmt : SelectStmt) (skipN takeN : Int) : List Op :=
  (if stmt.tableName ≠ "" then [Op.seqScan stmt.tableName] else []) ++
  (match stmt.whereExpr with
   | some w => [Op.filter w]
   | none => []) ++
  (match stmt.groupByExpr with
   | some g => [Op.groupBy g, Op.hashAggregate (collectAggregators stmt.projectionExprs)]
   | none =>
     if collectAggregators stmt.projectionExprs ≠ [] then
       [Op.hashAggregate (collectAggregators stmt.projectionExprs)]
     else []) ++
  [Op.project stmt.projectionExprs] ++
  (if stmt.distinct then [Op.distinct] else []) ++
  (match stmt.orderBy with
   | some p =>
     if stmt.orderByDirection = Token.DESC then [Op.sortReverse p] else [Op.sort p]
   | none => []) ++
  (match stmt.offsetExpr with
   | some _ => [Op.skip skipN]
   | none => []) ++
  (match stmt.limitExpr with
   | some _ => [Op.take takeN]
   | none => [])

/-- Whether a top-level projection passes the GROUP BY validation: a
`NamedExpr` whose inner expression is an aggregator or structurally equal
to the GROUP BY expression. -/
def projValidForGroup (g : Expr) (pe : Expr) : Bool :=
  match pe with
  | Expr.namedE _ e => e.isAggregator || e = g
  | _ => false

/-- The first projection failing the GROUP BY validation, if any. -/
def firstInvalidProjection (g : Expr) : List Expr → Option Expr
  | [] => none
  | pe :: rest =>
    if projValidForGroup g pe then firstInvalidProjection g rest else some pe

/-- The inner expression of a projection: a `NamedExpr` contributes the
expression it wraps. -/
def projInner : Expr → Expr
  | Expr.namedE _ e => e
  | e => e

/-! ## INSERT parser: VALUES arity check -/

/-- `expr.KVPair`: one field name paired with one expression. -/
structure KVPair where
  K : String
  V : Expr
deriving DecidableEq

/-- `expr.KVPairs`: the document literal built from a VALUES tuple. -/
structure KVPairs where
  Pairs : List KVPair
deriving DecidableEq

/-- `Parser.parseExprListWithFields` from
`src/internal/sql/parser/insert.go`, given the parenthesized field list
and the already-parsed expression tuple: a length mismatch is the error
`N values for M fields`, otherwise the i-th field is paired with the i-th
expression. -/
def parseExprListWithFields (fields : List String) (list : List Expr) :
    Except String KVPairs :=
  if list.length ≠ fields.length then
    Except.error (toString list.length ++ " values for " ++ toString fields.length ++ " fields")
  else
    Except.ok ⟨List.zipWith (fun k v => KVPair.mk k v) fields list⟩

/-! ## Theorems -/

theorem beVal8_beBytes8 (x : Nat) (hx : x < 2 ^ 64) : beVal8 (beBytes8 x) = x := by
  simp only [beBytes8, beVal8]
  omega

/-- C5: `AppendInt64` encodes `x` as the big-endian `uint64`
representation of `x + 2 ^ 63`, and `DecodeInt64` applied to those bytes
returns `x`, for every `int64` value `x` including the extremes. -/
theorem appendInt64_bias_and_roundtrip (x : Int) (h1 : -2 ^ 63 ≤ x) (h2 : x < 2 ^ 63) :
    AppendInt64 [] x = beBytes8 (x + 2 ^ 63).toNat ∧
    DecodeInt64 (AppendInt64 [] x) = Except.ok x := by
  have harg : (uint64OfInt64 x + (2 ^ 63 - 1) + 1) % 2 ^ 64 % 2 ^ 64 = (x + 2 ^ 63).toNat := by
    simp only [uint64OfInt64]
    omega
  have h1' : AppendInt64 [] x = beBytes8 (x + 2 ^ 63).toNat := by
    simp only [AppendInt64, AppendUint64, List.nil_append]
    rw [harg]
  refine ⟨h1', ?_⟩
  rw [h1']
  clear harg h1'
  simp only [DecodeInt64, DecodeUint64, beBytes8, beVal8, List.length_cons,
    List.length_nil, int64OfUint64]
  rw [if_neg (by omega)]
  split
  next heq => simp at heq
  next v heq =>
    injection heq with heq
    subst heq
    simp only [Except.ok.injEq]
    split <;> omega

/-- C5 witness at `x = -2 ^ 63` (`math.MinInt64`). -/
theorem appendInt64_bias_and_roundtrip_min :
    AppendInt64 [] (-2 ^ 63) = beBytes8 ((-2 ^ 63 : Int) + 2 ^ 63).toNat ∧
    DecodeInt64 (AppendInt64 [] (-2 ^ 63)) = Except.ok (-2 ^ 63) :=
  appendInt64_bias_and_roundtrip (-2 ^ 63) (by norm_num) (by norm_num)

/-- C9: every decode function fails exactly on insufficient input:
`DecodeBool` errs iff the buffer is empty, and `DecodeUint64`,
`DecodeInt64`, `DecodeFloat64` err iff fewer than 8 bytes are available.
(The Lean functions are total, so no input panics.) -/
theorem decode_error_iff_insufficient (buf : List Nat) :
    (isErr (DecodeBool buf) = true ↔ buf = []) ∧
    (isErr (DecodeUint64 buf) = true ↔ buf.length < 8) ∧
    (isErr (DecodeInt64 buf) = true ↔ buf.length < 8) ∧
    (isErr (DecodeFloat64 buf) = true ↔ buf.length < 8) := by
  refine ⟨?_, ?_, ?_, ?_⟩
  · cases buf <;> simp [DecodeBool, isErr]
  · by_cases h : buf.length < 8 <;> simp [DecodeUint64, h, isErr]
  · by_cases h : buf.length < 8 <;> simp [DecodeInt64, DecodeUint64, h, isErr]
  · by_cases h : buf.length < 8 <;> simp [DecodeFloat64, h, isErr]

/-- C9 witness: evaluation at the empty buffer and at an 8-byte buffer. -/
theorem decode_error_iff_insufficient_ex :
    isErr (DecodeBool []) = true ∧ isErr (DecodeInt64 [0, 0, 0, 0, 0, 0, 0, 0]) = false := by
  refine ⟨(decode_error_iff_insufficient []).1.2 rfl, ?_⟩
  have h := (decode_error_iff_insufficient [0, 0, 0, 0, 0, 0, 0, 0]).2.2.1
  simp only [List.length_cons, List.length_nil] at h
  revert h
  cases isErr (DecodeInt64 [0, 0, 0, 0, 0, 0, 0, 0]) <;> simp

/-- C1 (code bug): the float round trip fails at `x = -0.0` (bit pattern
`2 ^ 63`).  Since `-0.0 >= 0` holds in Go, `AppendFloat64` flips only the
sign bit, encoding `-0.0` as eight zero bytes; `DecodeFloat64` sees a
clear high bit and flips all 64 bits, producing the NaN pattern
`2 ^ 64 - 1` instead of `-0.0`. -/
theorem decodeFloat64_appendFloat64_neg_zero :
    AppendFloat64 [] (2 ^ 63) = [0, 0, 0, 0, 0, 0, 0, 0] ∧
    DecodeFloat64 (AppendFloat64 [] (2 ^ 63)) = Except.ok (2 ^ 64 - 1) ∧
    float64IsNaN (2 ^ 64 - 1) = true ∧ (2 ^ 64 - 1 : Nat) ≠ 2 ^ 63 :=
  ⟨by rfl, by rfl, by rfl, by decide⟩

/-- C2 (code bug): at `a = -1.0` (bit pattern `0xBFF0000000000000`) and
`b = -0.0` (bit pattern `2 ^ 63`) we have `a < b`, yet the encoding of `b`
is lexicographically smaller than the encoding of `a`: the encoder tests
`x >= 0`, which is true for `-0.0` even though its sign bit is 1, so it
flips only the sign bit there instead of all 64 bits. -/
theorem appendFloat64_order_violation :
    float64Lt 13830554455654793216 (2 ^ 63) = true ∧
    lexLt (AppendFloat64 [] (2 ^ 63)) (AppendFloat64 [] 13830554455654793216) = true ∧
    lexLt (AppendFloat64 [] 13830554455654793216) (AppendFloat64 [] (2 ^ 63)) = false := by
  refine ⟨by rfl, by rfl, by rfl⟩

/-- C10: on any non-empty buffer `DecodeBool` succeeds and returns `true`
exactly when the first byte is 255; any other first byte (including 0 and
1, which `AppendBool` never emits) decodes to `false` rather than being
rejected. -/
theorem decodeBool_first_byte (b : Nat) (rest : List Nat) :
    DecodeBool (b :: rest) = Except.ok (b == 255) := rfl

theorem chunk3Induction {motive : List Nat → Prop} (h0 : motive [])
    (h1 : ∀ a, motive [a]) (h2 : ∀ a b, motive [a, b])
    (h3 : ∀ a b c rest, motive rest → motive (a :: b :: c :: rest)) :
    ∀ l, motive l
  | [] => h0
  | [a] => h1 a
  | [a, b] => h2 a b
  | a :: b :: c :: rest => h3 a b c rest (chunk3Induction h0 h1 h2 h3 rest)

theorem sextets_eq_sxAux : ∀ l, base64Sextets l = sxAux 0 0 l := by
  intro l
  induction l using chunk3Induction with
  | h0 => rfl
  | h1 a => rfl
  | h2 a b => rfl
  | h3 a b c rest ih => simp [base64Sextets, sxAux, ih]

theorem lexLt_nil_of_ne (l : List Nat) (h : l ≠ []) : lexLt [] l = true := by
  cases l with
  | nil => exact absurd rfl h
  | cons a as => rfl

theorem sxAux1_ne_nil (c : Nat) (l : List Nat) : sxAux 1 c l ≠ [] := by
  cases l <;> simp [sxAux]

theorem sxAux2_ne_nil (c : Nat) (l : List Nat) : sxAux 2 c l ≠ [] := by
  cases l <;> simp [sxAux]

theorem lexLt_cons_same (x : Nat) (t1 t2 : List Nat) (h : lexLt t1 t2 = true) :
    lexLt (x :: t1) (x :: t2) = true := by
  simp [lexLt, h]

theorem lexLt_cons_lt (x y : Nat) (t1 t2 : List Nat) (h : x < y) :
    lexLt (x :: t1) (y :: t2) = true := by
  simp [lexLt]
  omega

theorem sxAux1_carry_lt (c cb : Nat) (hcc : c < cb) (as bs : List Nat)
    (ha : ∀ x ∈ as, x < 256) :
    lexLt (sxAux 1 c as) (sxAux 1 cb bs) = true := by
  cases as with
  | nil =>
    cases bs with
    | nil => simp [sxAux, lexLt]; omega
    | cons b bs => simp [sxAux, lexLt]; omega
  | cons a as =>
    have ha256 : a < 256 := ha a (List.mem_cons_self a as)
    cases bs with
    | nil => simp [sxAux, lexLt]; omega
    | cons b bs => simp [sxAux, lexLt]; omega

theorem sxAux2_carry_lt (c cb : Nat) (hcc : c < cb) (as bs : List Nat)
    (ha : ∀ x ∈ as, x < 256) :
    lexLt (sxAux 2 c as) (sxAux 2 cb bs) = true := by
  cases as with
  | nil =>
    cases bs with
    | nil => simp [sxAux, lexLt]; omega
    | cons b bs => simp [sxAux, lexLt]; omega
  | cons a as =>
    have ha256 : a < 256 := ha a (List.mem_cons_self a as)
    cases bs with
    | nil => simp [sxAux, lexLt]; omega
    | cons b bs => simp [sxAux, lexLt]; omega

theorem sxAux_mono : ∀ (as bs : List Nat), (∀ x ∈ as, x < 256) → (∀ x ∈ bs, x < 256) →
    lexLt as bs = true →
    ∀ phase c, phase ≤ 2 → lexLt (sxAux phase c as) (sxAux phase c bs) = true := by
  intro as
  induction as with
  | nil =>
    intro bs ha hb h phase c hp
    cases bs with
    | nil => simp [lexLt] at h
    | cons b bs =>
      interval_cases phase
      · exact lexLt_nil_of_ne _ (by simp [sxAux])
      · by_cases hd : 0 < b / 16
        · simp only [sxAux]
          exact lexLt_cons_lt _ _ _ _ (by omega)
        · have h16 : b / 16 = 0 := by omega
          simp only [sxAux, h16, Nat.add_zero]
          apply lexLt_cons_same
          exact lexLt_nil_of_ne _ (sxAux2_ne_nil (b % 16) bs)
      · by_cases hd : 0 < b / 64
        · simp only [sxAux]
          exact lexLt_cons_lt _ _ _ _ (by omega)
        · have h64 : b / 64 = 0 := by omega
          simp only [sxAux, h64, Nat.add_zero]
          apply lexLt_cons_same
          rfl
  | cons a as ih =>
    intro bs ha hb h phase c hp
    cases bs with
    | nil => simp [lexLt] at h
    | cons b bs =>
      have ha256 : a < 256 := ha a (List.mem_cons_self a as)
      have hb256 : b < 256 := hb b (List.mem_cons_self b bs)
      have has : ∀ x ∈ as, x < 256 := fun x hx => ha x (List.mem_cons_of_mem a hx)
      have hbs : ∀ x ∈ bs, x < 256 := fun x hx => hb x (List.mem_cons_of_mem b hx)
      simp only [lexLt, Bool.or_eq_true, Bool.and_eq_true, decide_eq_true_eq,
        beq_iff_eq] at h
      rcases h with hab | ⟨rfl, htail⟩
      · interval_cases phase
        · by_cases hq : a / 4 = b / 4
          · have hm : a % 4 < b % 4 := by omega
            simp only [sxAux]
            rw [hq]
            exact lexLt_cons_same _ _ _ (sxAux1_carry_lt (a % 4) (b % 4) hm as bs has)
          · simp only [sxAux]
            exact lexLt_cons_lt _ _ _ _ (by omega)
        · by_cases hq : a / 16 = b / 16
          · have hm : a % 16 < b % 16 := by omega
            simp only [sxAux]
            rw [hq]
            exact lexLt_cons_same _ _ _ (sxAux2_carry_lt (a % 16) (b % 16) hm as bs has)
          · simp only [sxAux]
            exact lexLt_cons_lt _ _ _ _ (by omega)
        · by_cases hq : a / 64 = b / 64
          · have hm : a % 64 < b % 64 := by omega
            simp only [sxAux]
            rw [hq]
            exact lexLt_cons_same _ _ _ (lexLt_cons_lt _ _ _ _ hm)
          · simp only [sxAux]
            exact lexLt_cons_lt _ _ _ _ (by omega)
      · interval_cases phase
        · simp only [sxAux]
          exact lexLt_cons_same _ _ _ (ih bs has hbs htail 1 (a % 4) (by omega))
        · simp only [sxAux]
          exact lexLt_cons_same _ _ _ (ih bs has hbs htail 2 (a % 16) (by omega))
        · simp only [sxAux]
          exact lexLt_cons_same _ _ _
            (lexLt_cons_same _ _ _ (ih bs has hbs htail 0 0 (by omega)))

theorem b64char_mono_fin : ∀ i j : Fin 64, i < j → b64char i.val < b64char j.val := by
  decide

theorem b64pos_char_fin : ∀ i : Fin 64, b64pos (b64char i.val) b64alphabet = some i.val := by
  decide

theorem b64char_mono (i j : Nat) (hij : i < j) (hj : j < 64) : b64char i < b64char j :=
  b64char_mono_fin ⟨i, by omega⟩ ⟨j, hj⟩ hij

theorem lexLt_map_b64char : ∀ (s t : List Nat), (∀ x ∈ t, x < 64) →
    lexLt s t = true → lexLt (s.map b64char) (t.map b64char) = true := by
  intro s
  induction s with
  | nil =>
    intro t ht h
    cases t with
    | nil => simp [lexLt] at h
    | cons b t => simp [lexLt, List.map]
  | cons a s ih =>
    intro t ht h
    cases t with
    | nil => simp [lexLt] at h
    | cons b t =>
      simp only [lexLt, Bool.or_eq_true, Bool.and_eq_true, decide_eq_true_eq,
        beq_iff_eq] at h
      simp only [List.map_cons, lexLt, Bool.or_eq_true, Bool.and_eq_true,
        decide_eq_true_eq, beq_iff_eq]
      rcases h with hab | ⟨rfl, htail⟩
      · exact Or.inl (b64char_mono a b hab (ht b (List.mem_cons_self b t)))
      · exact Or.inr ⟨rfl, ih t (fun x hx => ht x (List.mem_cons_of_mem _ hx)) htail⟩

theorem b64indices_map : ∀ s : List Nat, (∀ x ∈ s, x < 64) →
    b64indices (s.map b64char) = some s := by
  intro s
  induction s with
  | nil => intro hs; rfl
  | cons a s ih =>
    intro hs
    have ha : a < 64 := hs a (List.mem_cons_self a s)
    simp only [List.map_cons, b64indices]
    rw [b64pos_char_fin ⟨a, ha⟩, ih (fun x hx => hs x (List.mem_cons_of_mem a hx))]

theorem base64Sextets_lt64 : ∀ l : List Nat, (∀ x ∈ l, x < 256) →
    ∀ y ∈ base64Sextets l, y < 64 := by
  intro l
  induction l using chunk3Induction with
  | h0 => intro _ y hy; cases hy
  | h1 a =>
    intro hv y hy
    have ha := hv a (by simp)
    simp [base64Sextets] at hy
    rcases hy with rfl | rfl <;> omega
  | h2 a b =>
    intro hv y hy
    have ha := hv a (by simp)
    have hb := hv b (by simp)
    simp [base64Sextets] at hy
    rcases hy with rfl | rfl | rfl <;> omega
  | h3 a b c rest ih =>
    intro hv y hy
    have ha := hv a (by simp)
    have hb := hv b (by simp)
    have hc := hv c (by simp)
    simp only [base64Sextets, List.mem_cons] at hy
    rcases hy with rfl | rfl | rfl | rfl | hy
    · omega
    · omega
    · omega
    · omega
    · exact ih (fun x hx => hv x (by simp [hx])) y hy

theorem base64Unsextets_sextets : ∀ l : List Nat, (∀ x ∈ l, x < 256) →
    base64Unsextets (base64Sextets l) = l := by
  intro l
  induction l using chunk3Induction with
  | h0 => intro _; rfl
  | h1 a =>
    intro hv
    have ha := hv a (by simp)
    simp [base64Sextets, base64Unsextets]
    omega
  | h2 a b =>
    intro hv
    have ha := hv a (by simp)
    have hb := hv b (by simp)
    simp [base64Sextets, base64Unsextets]
    constructor <;> omega
  | h3 a b c rest ih =>
    intro hv
    have ha := hv a (by simp)
    have hb := hv b (by simp)
    have hc := hv c (by simp)
    simp only [base64Sextets, base64Unsextets, List.cons.injEq]
    refine ⟨by omega, by omega, by omega, ih (fun x hx => hv x (by simp [hx]))⟩

theorem base64Sextets_len_mod4 : ∀ l : List Nat, (base64Sextets l).length % 4 ≠ 1 := by
  intro l
  induction l using chunk3Induction with
  | h0 => simp [base64Sextets]
  | h1 a => simp [base64Sextets]
  | h2 a b => simp [base64Sextets]
  | h3 a b c rest ih =>
    simp only [base64Sextets, List.length_cons]
    omega

/-- C6: the unpadded base64 encoding over the order-preserving alphabet
preserves lexicographic order on arbitrary-length byte strings, and
`DecodeBase64` inverts `AppendBase64`. -/
theorem appendBase64_order_and_roundtrip (a b : List Nat)
    (ha : ∀ x ∈ a, x < 256) (hb : ∀ x ∈ b, x < 256) :
    (lexLt a b = true → lexLt (AppendBase64 [] a) (AppendBase64 [] b) = true) ∧
    DecodeBase64 (AppendBase64 [] a) = Except.ok a := by
  constructor
  · intro hab
    simp only [AppendBase64, List.nil_append]
    apply lexLt_map_b64char _ _ (base64Sextets_lt64 b hb)
    rw [sextets_eq_sxAux, sextets_eq_sxAux]
    exact sxAux_mono a b ha hb hab 0 0 (by omega)
  · simp only [AppendBase64, List.nil_append, DecodeBase64, List.length_map]
    rw [if_neg (base64Sextets_len_mod4 a)]
    rw [b64indices_map _ (base64Sextets_lt64 a ha)]
    simp [base64Unsextets_sextets a ha]

/-- C6 witness: `[0, 255]` sorts below `[1]` and so do their encodings,
and `[0, 255]` decodes back from its encoding. -/
theorem appendBase64_order_and_roundtrip_ex :
    lexLt (AppendBase64 [] [0, 255]) (AppendBase64 [] [1]) = true ∧
    DecodeBase64 (AppendBase64 [] [0, 255]) = Except.ok [0, 255] :=
  ⟨(appendBase64_order_and_roundtrip [0, 255] [1] (by decide) (by decide)).1 (by decide),
   (appendBase64_order_and_roundtrip [0, 255] [1] (by decide) (by decide)).2⟩

theorem groupByLoop_fst (g : Expr) (l : List Expr) :
    (groupByLoop g l).1 = firstInvalidProjection g l := by
  induction l with
  | nil => rfl
  | cons pe rest ih =>
    cases pe with
    | namedE n e =>
      by_cases he : e = g
      · subst he
        cases ha : e.isAggregator <;>
          simp [groupByLoop, firstInvalidProjection, projValidForGroup, ha, ih]
      · cases ha : e.isAggregator <;>
          simp [groupByLoop, firstInvalidProjection, projValidForGroup, ha, he, ih]
    | litE v => simp [groupByLoop, firstInvalidProjection, projValidForGroup]
    | pathE segs => simp [groupByLoop, firstInvalidProjection, projValidForGroup]
    | wildcard => simp [groupByLoop, firstInvalidProjection, projValidForGroup]
    | aggE n arg => simp [groupByLoop, firstInvalidProjection, projValidForGroup]

theorem groupByLoop_none_aggs (g : Expr) (l : List Expr)
    (h : (groupByLoop g l).1 = none) :
    (groupByLoop g l).2 = collectAggregators l := by
  induction l with
  | nil => rfl
  | cons pe rest ih =>
    cases pe with
    | namedE n e =>
      by_cases he : e = g
      · subst he
        cases ha : e.isAggregator <;>
          simp [groupByLoop, collectAggregators, ha] at h ⊢ <;>
          exact ih h
      · cases ha : e.isAggregator
        · simp [groupByLoop, ha, he] at h
        · simp [groupByLoop, collectAggregators, ha, he] at h ⊢
          exact ih h
    | litE v => simp [groupByLoop] at h
    | pathE segs => simp [groupByLoop] at h
    | wildcard => simp [groupByLoop] at h
    | aggE n arg => simp [groupByLoop] at h

theorem groupByLoop_none_cons (g pe : Expr) (rest : List Expr)
    (h : (groupByLoop g (pe :: rest)).1 = none) :
    projValidForGroup g pe = true ∧ (groupByLoop g rest).1 = none := by
  cases pe with
  | namedE n e =>
    by_cases he : e = g
    · subst he
      cases ha : e.isAggregator <;>
        simp [groupByLoop, projValidForGroup, ha] at h ⊢ <;>
        exact h
    · cases ha : e.isAggregator
      · simp [groupByLoop, ha, he] at h
      · simp [groupByLoop, projValidForGroup, ha, he] at h ⊢
        exact h
  | litE v => simp [groupByLoop] at h
  | pathE segs => simp [groupByLoop] at h
  | wildcard => simp [groupByLoop] at h
  | aggE n arg => simp [groupByLoop] at h

theorem groupByLoop_none_valid (g : Expr) (l : List Expr)
    (h : (groupByLoop g l).1 = none) :
    ∀ pe ∈ l, projValidForGroup g pe = true := by
  induction l with
  | nil => intro pe hpe; cases hpe
  | cons pe rest ih =>
    have hc := groupByLoop_none_cons g pe rest h
    intro q hq
    rcases List.mem_cons.mp hq with rfl | hq
    · exact hc.1
    · exact ih hc.2 q hq

theorem pipeTail_ok (stmt : SelectStmt) (s0 s : List Op)
    (h : pipeTail stmt s0 = Except.ok s) :
    s = s0 ++ [Op.project stmt.projectionExprs] ++
        (if stmt.distinct then [Op.distinct] else []) ++
        (match stmt.orderBy with
         | some p =>
           if stmt.orderByDirection = Token.DESC then [Op.sortReverse p] else [Op.sort p]
         | none => []) := by
  unfold pipeTail at h
  split at h
  · exact absurd h (by simp)
  · rcases hOrd : stmt.orderBy with _ | p <;>
      cases hD : stmt.distinct <;>
      by_cases hDir : stmt.orderByDirection = Token.DESC <;>
      simp [hOrd, hD, hDir] at h <;>
      simp [hOrd, hD, hDir, ← h, List.append_assoc]

theorem applyOffset_ok (stmt : SelectStmt) (s s2 : List Op)
    (h : applyOffset stmt s = Except.ok s2) :
    (stmt.offsetExpr = none ∧ s2 = s) ∨
    (∃ e n, stmt.offsetExpr = some e ∧ s2 = s ++ [Op.skip n]) := by
  unfold applyOffset at h
  split at h
  next hOff =>
    injection h with h
    exact Or.inl ⟨hOff, h.symm⟩
  next e hOff =>
    right
    split at h
    next => exact absurd h (by simp)
    next v hv =>
      split at h
      next => exact absurd h (by simp)
      next =>
        split at h
        next => exact absurd h (by simp)
        next v2 hc =>
          injection h with h
          exact ⟨e, valueToInt v2, hOff, h.symm⟩

theorem applyLimit_ok (stmt : SelectStmt) (s s2 : List Op)
    (h : applyLimit stmt s = Except.ok s2) :
    (stmt.limitExpr = none ∧ s2 = s) ∨
    (∃ e n, stmt.limitExpr = some e ∧ s2 = s ++ [Op.take n]) := by
  unfold applyLimit at h
  split at h
  next hLim =>
    injection h with h
    exact Or.inl ⟨hLim, h.symm⟩
  next e hLim =>
    right
    split at h
    next => exact absurd h (by simp)
    next v hv =>
      split at h
      next => exact absurd h (by simp)
      next =>
        split at h
        next => exact absurd h (by simp)
        next v2 hc =>
          injection h with h
          exact ⟨e, valueToInt v2, hLim, h.symm⟩

theorem planBase_ok (stmt : SelectStmt) (s : List Op)
    (h : planBase stmt = Except.ok s) :
    s = scanAndFilter stmt ++
        (match stmt.groupByExpr with
         | some g => [Op.groupBy g, Op.hashAggregate (collectAggregators stmt.projectionExprs)]
         | none =>
           if collectAggregators stmt.projectionExprs ≠ [] then
             [Op.hashAggregate (collectAggregators stmt.projectionExprs)]
           else []) ++
        [Op.project stmt.projectionExprs] ++
        (if stmt.distinct then [Op.distinct] else []) ++
        (match stmt.orderBy with
         | some p =>
           if stmt.orderByDirection = Token.DESC then [Op.sortReverse p] else [Op.sort p]
         | none => []) := by
  unfold planBase at h
  split at h
  next g hG =>
    split at h
    next inv x heq => exact absurd h (by simp)
    next aggs heq =>
      have haggs : aggs = collectAggregators stmt.projectionExprs := by
        have h2 := groupByLoop_none_aggs g stmt.projectionExprs (by rw [heq])
        rw [heq] at h2
        exact h2
      have h3 := pipeTail_ok stmt _ s h
      simp [h3, haggs, hG, List.append_assoc]
  next hG =>
    have h3 := pipeTail_ok stmt _ s h
    rcases hc : collectAggregators stmt.projectionExprs with _ | ⟨a, as⟩ <;>
      rw [hc] at h3 <;>
      simp [h3, hc, hG, List.append_assoc]

/-- C3: whenever `ToStream` succeeds on a SELECT statement, the produced
pipeline is exactly the stage sequence of spec section 4.4: SeqScan when
FROM is present, then Filter for WHERE, then GroupBy + HashAggregate for
GROUP BY (or HashAggregate alone when aggregators occur without GROUP
BY), then Project, then Distinct, then Sort or SortReverse for ORDER BY,
then Skip for OFFSET, then Take for LIMIT, each stage present exactly
when its clause is present. -/
theorem toStream_stage_order (stmt : SelectStmt) (s : List Op)
    (h : ToStream stmt = Except.ok s) :
    ∃ skipN takeN, s = specPipeline stmt skipN takeN := by
  unfold ToStream at h
  split at h
  next => exact absurd h (by simp)
  next s1 hb =>
    split at h
    next => exact absurd h (by simp)
    next s2 ho =>
      have hs1 := planBase_ok stmt s1 hb
      rcases applyOffset_ok stmt s1 s2 ho with ⟨hOff, hs2⟩ | ⟨e, n, hOff, hs2⟩
      · rcases applyLimit_ok stmt s2 s h with ⟨hLim, hs⟩ | ⟨e, m, hLim, hs⟩
        · exact ⟨0, 0, by simp [hs, hs2, hs1, specPipeline, scanAndFilter, hOff, hLim, List.append_assoc]⟩
        · exact ⟨0, m, by simp [hs, hs2, hs1, specPipeline, scanAndFilter, hOff, hLim, List.append_assoc]⟩
      · rcases applyLimit_ok stmt s2 s h with ⟨hLim, hs⟩ | ⟨e2, m, hLim, hs⟩
        · exact ⟨n, 0, by simp [hs, hs2, hs1, specPipeline, scanAndFilter, hOff, hLim, List.append_assoc]⟩
        · exact ⟨n, m, by simp [hs, hs2, hs1, specPipeline, scanAndFilter, hOff, hLim, List.append_assoc]⟩

/-- C3 witness: a SELECT with FROM, WHERE, DISTINCT, ORDER BY, OFFSET 1
and LIMIT 2 plans to exactly the section 4.4 stage sequence. -/
theorem toStream_stage_order_ex :
    ∃ skipN takeN,
      [Op.seqScan "t", Op.filter (Expr.pathE ["a"]),
       Op.project [Expr.namedE "a" (Expr.pathE ["a"])], Op.distinct,
       Op.sort ["a"], Op.skip 1, Op.take 2] =
      specPipeline
        (SelectStmt.mk "t" true (some (Expr.pathE ["a"])) none (some ["a"]) Token.ASC
          (some (Expr.litE (Value.intV 1))) (some (Expr.litE (Value.intV 2)))
          [Expr.namedE "a" (Expr.pathE ["a"])]) skipN takeN :=
  toStream_stage_order _ _ (by rfl)

/-- C4: with a GROUP BY clause, `ToStream` succeeds only when every
top-level projection is an aggregator expression or structurally equal to
the GROUP BY expression; the first projection violating this makes
`ToStream` return the error `field "X" must appear in the GROUP BY clause
or be used in an aggregate function` with `X` the offending expression,
and no stream is produced. -/
theorem toStream_groupBy_validation (stmt : SelectStmt) (g : Expr)
    (hg : stmt.groupByExpr = some g) :
    (∀ s, ToStream stmt = Except.ok s →
      ∀ pe ∈ stmt.projectionExprs,
        (projInner pe).isAggregator = true ∨ projInner pe = g) ∧
    (∀ pe, firstInvalidProjection g stmt.projectionExprs = some pe →
      ToStream stmt = Except.error (groupByFieldError pe)) := by
  constructor
  · intro s h pe hpe
    have hnone : (groupByLoop g stmt.projectionExprs).1 = none := by
      unfold ToStream at h
      split at h
      next heq =>
        exact absurd h (by simp)
      next s1 hb =>
        simp only [planBase, hg] at hb
        rcases hpair : groupByLoop g stmt.projectionExprs with ⟨fst, snd⟩
        rw [hpair] at hb
        cases fst with
        | none => simp [hpair]
        | some inv => exact absurd hb (by simp)
    have hvalid := groupByLoop_none_valid g stmt.projectionExprs hnone pe hpe
    cases pe with
    | namedE n e =>
      simp only [projValidForGroup, Bool.or_eq_true, decide_eq_true_eq] at hvalid
      simpa [projInner] using hvalid
    | litE v => simp [projValidForGroup] at hvalid
    | pathE segs => simp [projValidForGroup] at hvalid
    | wildcard => simp [projValidForGroup] at hvalid
    | aggE n arg => simp [projValidForGroup] at hvalid
  · intro pe hinv
    have hfst : (groupByLoop g stmt.projectionExprs).1 = some pe := by
      rw [groupByLoop_fst]
      exact hinv
    have hplan : planBase stmt = Except.error (groupByFieldError pe) := by
      rcases hpair : groupByLoop g stmt.projectionExprs with ⟨fst, snd⟩
      rw [hpair] at hfst
      simp only at hfst
      subst hfst
      simp [planBase, hg, hpair]
    simp [ToStream, hplan]

/-- C4 witness: grouping on path `a` while projecting path `b` is
rejected with the literal error text. -/
theorem toStream_groupBy_validation_ex :
    ToStream
      (SelectStmt.mk "t" false none (some (Expr.pathE ["a"])) none Token.ASC none none
        [Expr.namedE "b" (Expr.pathE ["b"])]) =
    Except.error
      "field \"b\" must appear in the GROUP BY clause or be used in an aggregate function" :=
  (toStream_groupBy_validation _ (Expr.pathE ["a"]) rfl).2
    (Expr.namedE "b" (Expr.pathE ["b"])) (by rfl)

/-- C7: `ToStream` evaluates OFFSET and LIMIT expressions at plan time
against an empty environment; a non-numeric result value of type T yields
the plan-time error `offset expression must evaluate to a number, got
"T"` (respectively `limit ...`) and no stream; a numeric result is cast
to an integer and passed to `Skip` (respectively `Take`). -/
theorem toStream_offset_limit (stmt : SelectStmt) (s0 : List Op)
    (hbase : planBase stmt = Except.ok s0) :
    (∀ e v, stmt.offsetExpr = some e → Expr.eval e = Except.ok v →
      v.valType.IsNumber = false →
      ToStream stmt = Except.error
        ("offset expression must evaluate to a number, got \"" ++
          v.valType.typeName ++ "\"")) ∧
    (∀ e v, stmt.offsetExpr = some e → Expr.eval e = Except.ok v →
      v.valType.IsNumber = true →
      ∃ n, castAsInteger v = Except.ok (Value.intV n) ∧
        applyOffset stmt s0 = Except.ok (s0 ++ [Op.skip n])) ∧
    (∀ s1 e v, applyOffset stmt s0 = Except.ok s1 → stmt.limitExpr = some e →
      Expr.eval e = Except.ok v → v.valType.IsNumber = false →
      ToStream stmt = Except.error
        ("limit expression must evaluate to a number, got \"" ++
          v.valType.typeName ++ "\"")) ∧
    (∀ s1 e v, applyOffset stmt s0 = Except.ok s1 → stmt.limitExpr = some e →
      Expr.eval e = Except.ok v → v.valType.IsNumber = true →
      ∃ n, castAsInteger v = Except.ok (Value.intV n) ∧
        ToStream stmt = Except.ok (s1 ++ [Op.take n])) := by
  refine ⟨?_, ?_, ?_, ?_⟩
  · intro e v hOff hv hnum
    simp [ToStream, hbase, applyOffset, hOff, hv, hnum]
  · intro e v hOff hv hnum
    rcases v with _ | b | i | d | str | bs | _ | _ <;>
      simp [Value.valType, ValueType.IsNumber] at hnum
    · exact ⟨i, rfl, by
        simp [applyOffset, hOff, hv, Value.valType, ValueType.IsNumber,
          castAsInteger, valueToInt]⟩
    · exact ⟨d, rfl, by
        simp [applyOffset, hOff, hv, Value.valType, ValueType.IsNumber,
          castAsInteger, valueToInt]⟩
  · intro s1 e v ho hLim hv hnum
    simp [ToStream, hbase, ho, applyLimit, hLim, hv, hnum]
  · intro s1 e v ho hLim hv hnum
    rcases v with _ | b | i | d | str | bs | _ | _ <;>
      simp [Value.valType, ValueType.IsNumber] at hnum
    · exact ⟨i, rfl, by
        simp [ToStream, hbase, ho, applyLimit, hLim, hv, Value.valType,
          ValueType.IsNumber, castAsInteger, valueToInt]⟩
    · exact ⟨d, rfl, by
        simp [ToStream, hbase, ho, applyLimit, hLim, hv, Value.valType,
          ValueType.IsNumber, castAsInteger, valueToInt]⟩

/-- C7 witness: a text OFFSET is rejected with the literal error text. -/
theorem toStream_offset_limit_ex :
    ToStream
      (SelectStmt.mk "t" false none none none Token.ASC
        (some (Expr.litE (Value.textV "x"))) none
        [Expr.namedE "a" (Expr.pathE ["a"])]) =
    Except.error "offset expression must evaluate to a number, got \"text\"" :=
  (toStream_offset_limit _ [Op.seqScan "t",
      Op.project [Expr.namedE "a" (Expr.pathE ["a"])]] (by rfl)).1
    (Expr.litE (Value.textV "x")) (Value.textV "x") rfl rfl rfl

theorem zipWith_kvpair_getD (as : List String) (bs : List Expr) :
    ∀ i, i < as.length → i < bs.length →
      (List.zipWith (fun k v => KVPair.mk k v) as bs).getD i (KVPair.mk "" Expr.wildcard) =
        KVPair.mk (as.getD i "") (bs.getD i Expr.wildcard) := by
  induction as generalizing bs with
  | nil => intro i h1 h2; cases h1
  | cons a as ih =>
    intro i h1 h2
    cases bs with
    | nil => cases h2
    | cons b bs =>
      cases i with
      | zero => rfl
      | succ j =>
        simp only [List.zipWith_cons_cons, List.getD_cons_succ]
        exact ih bs j (by simpa using h1) (by simpa using h2)

/-- C8: with a parenthesized field list of M fields, a VALUES tuple of
N ≠ M expressions fails with exactly the error `N values for M fields`;
a tuple of matching arity parses into a `KVPairs` document pairing the
i-th field name with the i-th expression. -/
theorem parseExprListWithFields_arity (fields : List String) (list : List Expr) :
    (list.length ≠ fields.length →
      parseExprListWithFields fields list =
        Except.error
          (toString list.length ++ " values for " ++ toString fields.length ++ " fields")) ∧
    (list.length = fields.length →
      ∃ kvp, parseExprListWithFields fields list = Except.ok kvp ∧
        kvp.Pairs.length = fields.length ∧
        ∀ i, i < fields.length →
          kvp.Pairs.getD i (KVPair.mk "" Expr.wildcard) =
            KVPair.mk (fields.getD i "") (list.getD i Expr.wildcard)) := by
  constructor
  · intro hne
    unfold parseExprListWithFields
    rw [if_pos hne]
  · intro heq
    refine ⟨⟨List.zipWith (fun k v => KVPair.mk k v) fields list⟩, ?_, ?_, ?_⟩
    · unfold parseExprListWithFields
      rw [if_neg (by omega)]
    · simp [List.length_zipWith, heq]
    · intro i hi
      exact zipWith_kvpair_getD fields list i hi (by omega)

/-- C8 witness: 3 values for 2 fields is the literal arity error, and a
matching tuple pairs fields with expressions position-wise. -/
theorem parseExprListWithFields_arity_ex :
    parseExprListWithFields ["a", "b"]
      [Expr.litE (Value.intV 1), Expr.litE (Value.intV 2), Expr.litE (Value.intV 3)] =
      Except.error "3 values for 2 fields" ∧
    parseExprListWithFields ["a", "b"]
      [Expr.litE (Value.intV 1), Expr.litE (Value.intV 2)] =
      Except.ok ⟨[KVPair.mk "a" (Expr.litE (Value.intV 1)),
                  KVPair.mk "b" (Expr.litE (Value.intV 2))]⟩ := by
  constructor
  · exact (parseExprListWithFields_arity ["a", "b"] _).1 (by decide)
  · have h := (parseExprListWithFields_arity ["a", "b"]
      [Expr.litE (Value.intV 1), Expr.litE (Value.intV 2)]).2 (by decide)
    rcases h with ⟨kvp, hok, hlen, hidx⟩
    rw [hok]
    have h0 := hidx 0 (by decide)
    have h1 := hidx 1 (by decide)
    rcases kvp with ⟨pairs⟩
    rcases pairs with _ | ⟨p0, pairs⟩
    · simp at hlen
    · rcases pairs with _ | ⟨p1, pairs⟩
      · simp at hlen
      · rcases pairs with _ | ⟨p2, pairs⟩
        · simp only [List.getD_cons_zero, List.getD_cons_succ] at h0 h1
          rw [h0, h1]
        · simp at hlen

end Genji

